import Mathlib

/-!
Verification development for the `tgt` render-orchestration core.

The development shallowly embeds the two source files of the repository:

* `src/enums/event.rs` — the `Event` enum, the key-combo parser
  (`Event::event_with_modifiers`, `FromStr for Event`) and the `Display`
  formatter.  Rust `&str` values are embedded as `List Char`; Rust's
  byte-oriented `str::len` is embedded as the sum of the UTF-8 byte widths
  of the characters.
* `src/tui.rs` — the `Tui` orchestrator: `register_action_handler`,
  `handle_events`, `update` and `draw`.  The owned components (TitleBar,
  CoreWindow, StatusBar) live outside the sampled sources, so their hooks
  are parameters of the embedding; invocations of those hooks are recorded
  as an explicit effect trace.  The Rust `HashMap` has an unspecified
  iteration order, so the operations that iterate over it take the
  iteration order as an explicit parameter ranging over the permutations
  of the registered component names.

External values used by the source are embedded faithfully to their
upstream definitions: the crossterm `KeyModifiers` bitflags constants and
the UTF-8 width of a `char`.  Pieces of the program that are outside the
sampled sources and are only described by the specification (the ratatui
constraint solver, the `SMALL_AREA_HEIGHT` / `SMALL_AREA_WIDTH` constants,
the debug render of external types) are modelled from the spec and are
marked as such in their doc comments.
-/

namespace Tgt

/-! ## Event model (src/enums/event.rs) -/

/-- Bit value of `crossterm::event::KeyModifiers::NONE` (`0b0000_0000`). -/
def KM_NONE : Nat := 0

/-- Bit value of `crossterm::event::KeyModifiers::SHIFT` (`0b0000_0001`). -/
def KM_SHIFT : Nat := 1

/-- Bit value of `crossterm::event::KeyModifiers::CONTROL` (`0b0000_0010`). -/
def KM_CONTROL : Nat := 2

/-- Bit value of `crossterm::event::KeyModifiers::ALT` (`0b0000_0100`). -/
def KM_ALT : Nat := 4

/-- Bit value of `crossterm::event::KeyModifiers::SUPER` (`0b0000_1000`). -/
def KM_SUPER : Nat := 8

/-- Bit value of `crossterm::event::KeyModifiers::HYPER` (`0b0001_0000`). -/
def KM_HYPER : Nat := 16

/-- Bit value of `crossterm::event::KeyModifiers::META` (`0b0010_0000`). -/
def KM_META : Nat := 32

/-- The subset of `crossterm::event::KeyCode` that the sampled sources
construct or inspect: the named keys of the parser table, function keys,
and literal character keys. -/
inductive KeyCode where
  | Backspace | Enter | Left | Right | Up | Down | Home | End
  | PageUp | PageDown | Tab | BackTab | Delete | Insert | Null | Esc
  | F (n : Nat)
  | Char (c : Char)
deriving DecidableEq

/-- Embedding of `ratatui::layout::Rect` (`u16` fields embedded as `Nat`;
all values handled by the claims are far below `2^16`). -/
structure Rect where
  x : Nat
  y : Nat
  width : Nat
  height : Nat
deriving DecidableEq

/-- The `Event` enum of `src/enums/event.rs`.  `Paste` carries the pasted
string as a character list; the external `MouseEvent` payload is abstracted
to an opaque `Nat`. -/
inductive Event where
  | Unknown
  | Resize (w h : Nat)
  | Key (code : KeyCode) (modifiers : Nat)
  | Paste (s : List Char)
  | Mouse (me : Nat)
  | Init
  | Render
  | UpdateArea (r : Rect)
deriving DecidableEq

/-- The error variant of `AppError` used by the parser.  The `AppError`
type itself is defined outside the sampled sources; the spec (§7) and the
use in `event_with_modifiers` fix the variant `InvalidEvent` carrying the
offending segment. -/
inductive AppError where
  | InvalidEvent (s : List Char)
deriving DecidableEq

/-- Decidable equality for `Except` results, needed to evaluate parse
outcomes on concrete inputs. -/
instance {e a : Type} [DecidableEq e] [DecidableEq a] :
    DecidableEq (Except e a) := fun x y =>
  match x, y with
  | .ok u, .ok v =>
      if h : u = v then .isTrue (by rw [h]) else .isFalse (by simp [h])
  | .error u, .error v =>
      if h : u = v then .isTrue (by rw [h]) else .isFalse (by simp [h])
  | .ok _, .error _ => .isFalse (by simp)
  | .error _, .ok _ => .isFalse (by simp)

/-- UTF-8 byte width of a character, as Rust's `char::len_utf8` computes
it.  Used to embed the byte-oriented `str::len`. -/
def charBytes (c : Char) : Nat :=
  if c.toNat ≤ 0x7F then 1
  else if c.toNat ≤ 0x7FF then 2
  else if c.toNat ≤ 0xFFFF then 3
  else 4

/-- Rust `str::len`: the number of UTF-8 bytes of the string. -/
def rustLen (s : List Char) : Nat := (s.map charBytes).sum

/-- Rust `char::is_ascii`: the code point is at most `0x7F`. -/
def rustIsAscii (c : Char) : Bool := c.toNat ≤ 0x7F

/-- The fixed named-key table of `Event::event_with_modifiers`
(`src/enums/event.rs` lines 41–68), in source order. -/
def namedKeys : List (List Char × KeyCode) :=
  [("backspace".data, .Backspace), ("enter".data, .Enter),
   ("left".data, .Left), ("right".data, .Right),
   ("up".data, .Up), ("down".data, .Down),
   ("home".data, .Home), ("end".data, .End),
   ("page_up".data, .PageUp), ("page_down".data, .PageDown),
   ("tab".data, .Tab), ("back_tab".data, .BackTab),
   ("delete".data, .Delete), ("insert".data, .Insert),
   ("null".data, .Null), ("esc".data, .Esc),
   ("f1".data, .F 1), ("f2".data, .F 2), ("f3".data, .F 3),
   ("f4".data, .F 4), ("f5".data, .F 5), ("f6".data, .F 6),
   ("f7".data, .F 7), ("f8".data, .F 8), ("f9".data, .F 9),
   ("f10".data, .F 10), ("f11".data, .F 11), ("f12".data, .F 12)]

/-- First-match lookup in an association list, as the ordered literal
patterns of a Rust `match` on `&str` behave. -/
def lookupKey (s : List Char) : List (List Char × KeyCode) → Option KeyCode
  | [] => none
  | (k, v) :: rest => if s = k then some v else lookupKey s rest

/-- `Event::event_with_modifiers` (`src/enums/event.rs` lines 36–80):
named keys resolve through the table; otherwise a string of exactly one
byte whose character is ASCII yields a `Char` key; everything else is an
`InvalidEvent` error carrying the segment.  The `headD` stands for the
`chars().next().unwrap()` that the short-circuit guard makes safe. -/
def event_with_modifiers (s : List Char) (modifiers : Nat) :
    Except AppError Event :=
  match lookupKey s namedKeys with
  | some k => .ok (.Key k modifiers)
  | none =>
      if rustLen s = 1 ∧ rustIsAscii (s.headD 'a') then
        .ok (.Key (.Char (s.headD 'a')) modifiers)
      else
        .error (.InvalidEvent s)

/-- Rust `str::split('+')`: splits on every `'+'`, keeping empty segments;
the result is always nonempty. -/
def splitPlus : List Char → List (List Char)
  | [] => [[]]
  | c :: cs =>
      if c = '+' then [] :: splitPlus cs
      else
        match splitPlus cs with
        | seg :: rest => (c :: seg) :: rest
        | [] => [[c]]

/-- The modifier-name resolution of `FromStr for Event`
(`src/enums/event.rs` lines 93–101): the six lowercase names map to their
bitflags, anything else maps to `NONE`. -/
def toModifier (m : List Char) : Nat :=
  if m = "ctrl".data then KM_CONTROL
  else if m = "alt".data then KM_ALT
  else if m = "shift".data then KM_SHIFT
  else if m = "super".data then KM_SUPER
  else if m = "meta".data then KM_META
  else if m = "hyper".data then KM_HYPER
  else KM_NONE

/-- `FromStr for Event` (`src/enums/event.rs` lines 87–107): split on
`'+'`; with more than one segment, fold the leading segments into a
modifier set with bitwise union and parse the last segment as the key;
otherwise parse the whole input with `NONE` modifiers. -/
def fromStrL (s : List Char) : Except AppError Event :=
  let modifiers := splitPlus s
  if 1 < modifiers.length then
    let key := modifiers.getLastD []
    let mods := ((modifiers.dropLast).map toModifier).foldl
      (fun acc m => acc ||| m) KM_NONE
    event_with_modifiers key mods
  else
    event_with_modifiers s KM_NONE

/-- `Event::from_str` on a Lean string literal. -/
def fromStr (s : String) : Except AppError Event := fromStrL s.data

/-- Debug render of the embedded `KeyCode` variants, mirroring the derived
`Debug` of crossterm's `KeyCode` for the variants the parser produces. -/
def fmtKeyCode : KeyCode → List Char
  | .Backspace => "Backspace".data
  | .Enter => "Enter".data
  | .Left => "Left".data
  | .Right => "Right".data
  | .Up => "Up".data
  | .Down => "Down".data
  | .Home => "Home".data
  | .End => "End".data
  | .PageUp => "PageUp".data
  | .PageDown => "PageDown".data
  | .Tab => "Tab".data
  | .BackTab => "BackTab".data
  | .Delete => "Delete".data
  | .Insert => "Insert".data
  | .Null => "Null".data
  | .Esc => "Esc".data
  | .F n => "F(".data ++ (toString n).data ++ ")".data
  | .Char c => "Char(".data ++ '\'' :: c :: '\'' :: ")".data

/-- Modelled from the spec: the `<debug-modifiers>` rendering of a combined
modifier set (§4.1), an external `Debug` impl abstracted to an opaque but
concrete form; no claim depends on its exact shape. -/
def fmtModifiersDebug (mods : Nat) : List Char :=
  "KeyModifiers(".data ++ (toString mods).data ++ ")".data

/-- Modelled from the spec: the debug form of a `Rect` (§4.1 formats
`UpdateArea` via the external `Debug` impl); no claim depends on it. -/
def fmtRectDebug (r : Rect) : List Char :=
  "Rect(".data ++ (toString r.x).data ++ ", ".data ++ (toString r.y).data
    ++ ", ".data ++ (toString r.width).data ++ ", ".data
    ++ (toString r.height).data ++ ")".data

/-- `Display for Event` (`src/enums/event.rs` lines 111–143).  A `Key`
renders the character itself for `Char` keys and the debug form for other
keys; the modifier set is matched against the exact bit values `NONE`,
`CONTROL`, `ALT`, `SHIFT`, `SUPER`, `META`, `HYPER` in source order, any
other value falling to the debug rendering. -/
def fmtEventL : Event → List Char
  | .Unknown => "Unknown".data
  | .Init => "Init".data
  | .Render => "Render".data
  | .Resize w h =>
      "Resize(".data ++ (toString w).data ++ ", ".data
        ++ (toString h).data ++ ")".data
  | .Key key mods =>
      let k := match key with
        | .Char c => [c]
        | other => fmtKeyCode other
      if mods = KM_NONE then k
      else if mods = KM_CONTROL then "Ctrl+".data ++ k
      else if mods = KM_ALT then "Alt+".data ++ k
      else if mods = KM_SHIFT then "Shift+".data ++ k
      else if mods = KM_SUPER then "Super+".data ++ k
      else if mods = KM_META then "Meta+".data ++ k
      else if mods = KM_HYPER then "Hyper+".data ++ k
      else fmtModifiersDebug mods ++ "+".data ++ k
  | .Mouse me => "Mouse(".data ++ (toString me).data ++ ")".data
  | .UpdateArea r => "UpdateArea(".data ++ fmtRectDebug r ++ ")".data
  | .Paste s => "Paste(".data ++ s ++ ")".data

/-- `Display for Event` producing a Lean string. -/
def fmtEvent (e : Event) : String := ⟨fmtEventL e⟩

/-- Joining segments with `'+'`, the left inverse of `splitPlus` on
`'+'`-free segments; used to state claims about whole key-combo strings. -/
def joinPlus : List (List Char) → List Char
  | [] => []
  | [s] => s
  | s :: rest => s ++ '+' :: joinPlus rest


/-! ## Orchestrator (src/tui.rs) -/

/-- The `ComponentName` keys of the component registry. -/
inductive ComponentName where
  | TitleBar | CoreWindow | StatusBar
deriving DecidableEq

/-- The `Action` payload: opaque to this core except for the `UpdateArea`
variant that `Tui::draw` synthesizes itself. -/
inductive Action where
  | updateArea (r : Rect)
  | other (n : Nat)
deriving DecidableEq

/-- The two configuration flags `draw` reads from the shared application
context. -/
structure AppConfig where
  show_title_bar : Bool
  show_status_bar : Bool
deriving DecidableEq

/-- Contents of the component registry: whether each named component is
present.  `Tui::new` always registers all three. -/
structure Registry where
  titleBar : Bool
  coreWindow : Bool
  statusBar : Bool
deriving DecidableEq

/-- Presence of a named component in the registry. -/
def Registry.present (reg : Registry) : ComponentName → Bool
  | .TitleBar => reg.titleBar
  | .CoreWindow => reg.coreWindow
  | .StatusBar => reg.statusBar

/-- Mutable state of the `Tui` struct that `draw` reads and writes: the
registry contents and the stored `hash_frame`. -/
structure TuiState where
  registry : Registry
  hash_frame : Option Nat
deriving DecidableEq

/-- The registry as `Tui::new` builds it (lines 39–70): all three named
components are registered. -/
def tuiNewRegistry : Registry := ⟨true, true, true⟩

/-- The order in which `Tui::new` lists the components when building the
registry (lines 40–59). -/
def registrationOrder : List ComponentName :=
  [.TitleBar, .CoreWindow, .StatusBar]

/-- One observable interaction of the orchestrator with a component
during `draw`: an `update` push, the small-area toggle on `CoreWindow`,
the layout split, or a component `draw` call (with its band). -/
inductive Effect where
  | updateComp (n : ComponentName) (a : Action)
  | setSmallArea (b : Bool)
  | layoutSplit (header body footer : Nat)
  | drawComp (n : ComponentName) (band : Rect)
deriving DecidableEq

/-- Outcome of a `draw` call: a normal `Ok` return, a propagated component
draw error, or a Rust `panic!` (the `unwrap` / `unwrap_or_else(panic!)`
paths taken when a named component is absent). -/
inductive DrawResult where
  | ok
  | err
  | panicked (n : ComponentName)
deriving DecidableEq

/-- Result of an embedded `draw` call: the outcome, the state after the
call, and the trace of component interactions in order. -/
structure DrawOut where
  result : DrawResult
  state : TuiState
  effects : List Effect
deriving DecidableEq

/-- Header band height as `draw` computes it (`src/tui.rs` lines 150–158):
3 when `show_title_bar` is set and `area.height > SMALL_AREA_HEIGHT + 5`,
else 0.  `SMALL_AREA_HEIGHT` lives outside the sampled sources and is a
parameter `sah`. -/
def headerHeight (show_title_bar : Bool) (areaH sah : Nat) : Nat :=
  if show_title_bar then (if sah + 5 < areaH then 3 else 0) else 0

/-- Footer band height as `draw` computes it (`src/tui.rs` lines 160–168),
gated by `show_status_bar` under the same size condition. -/
def footerHeight (show_status_bar : Bool) (areaH sah : Nat) : Nat :=
  if show_status_bar then (if sah + 5 < areaH then 3 else 0) else 0

/-- Modelled from the spec: the ratatui vertical layout solver for the
constraints `[Length h1, Min m, Length h3]` (§4.3 step 4: fixed-length
bands first, the remainder — at least the minimum `m` — to the flexible
body band).  The solver itself is an external crate, outside the sampled
sources. -/
def splitVertical3 (areaH h1 m h3 : Nat) : Nat × Nat × Nat :=
  (h1, max m (areaH - h1 - h3), h3)

/-- The three band heights of the vertical split `draw` performs
(`src/tui.rs` lines 147–171): header and footer from the configuration
flags and the size threshold, the body from the `Min SMALL_AREA_HEIGHT`
constraint. -/
def drawLayout (show_title_bar show_status_bar : Bool) (areaH sah : Nat) :
    Nat × Nat × Nat :=
  splitVertical3 areaH (headerHeight show_title_bar areaH sah) sah
    (footerHeight show_status_bar areaH sah)

/-- Modelled from the spec: the sub-areas the solver hands to the three
draw calls — the bands stacked top to bottom over the full width. -/
def bandRects (area : Rect) (h1 body h3 : Nat) : Rect × Rect × Rect :=
  (⟨area.x, area.y, area.width, h1⟩,
   ⟨area.x, area.y + h1, area.width, body⟩,
   ⟨area.x, area.y + h1 + body, area.width, h3⟩)

/-- The non-skipped tail of `Tui::draw` (`src/tui.rs` lines 136–201):
push `UpdateArea` into StatusBar (panicking if absent), toggle the
small-area mode on CoreWindow (panicking if absent), compute the layout,
then draw TitleBar, CoreWindow, StatusBar into their bands in that order
(panicking if TitleBar is absent, propagating any draw error), finally
storing the hash of the frame as it stands after drawing.  `drawOk n`
tells whether component `n`'s own draw hook succeeds; `hashAfter` is the
hash of the frame buffer after the three draws. -/
def Tui.drawBody (cfg : AppConfig) (sah saw : Nat) (st : TuiState)
    (area : Rect) (hashAfter : Nat) (drawOk : ComponentName → Bool) :
    DrawOut :=
  if st.registry.statusBar = false then ⟨.panicked .StatusBar, st, []⟩ else
  let es1 := [Effect.updateComp .StatusBar (.updateArea area)]
  if st.registry.coreWindow = false then ⟨.panicked .CoreWindow, st, es1⟩ else
  let es2 := es1 ++ [Effect.setSmallArea (decide (area.width < saw))]
  let L := drawLayout cfg.show_title_bar cfg.show_status_bar area.height sah
  let es3 := es2 ++ [Effect.layoutSplit L.1 L.2.1 L.2.2]
  let B := bandRects area L.1 L.2.1 L.2.2
  if st.registry.titleBar = false then ⟨.panicked .TitleBar, st, es3⟩ else
  let es4 := es3 ++ [Effect.drawComp .TitleBar B.1]
  if drawOk .TitleBar = false then ⟨.err, st, es4⟩ else
  let es5 := es4 ++ [Effect.drawComp .CoreWindow B.2.1]
  if drawOk .CoreWindow = false then ⟨.err, st, es5⟩ else
  let es6 := es5 ++ [Effect.drawComp .StatusBar B.2.2]
  if drawOk .StatusBar = false then ⟨.err, st, es6⟩ else
  ⟨.ok, { st with hash_frame := some hashAfter }, es6⟩

/-- `Tui::draw` (`src/tui.rs` lines 127–202).  `hashBefore` is the
`DefaultHasher` digest of the frame buffer at entry; when a stored hash
exists and compares equal the whole pass is skipped with `Ok(())`. -/
def Tui.draw (cfg : AppConfig) (sah saw : Nat) (st : TuiState)
    (area : Rect) (hashBefore hashAfter : Nat)
    (drawOk : ComponentName → Bool) : DrawOut :=
  match st.hash_frame with
  | some current =>
      if current = hashBefore then ⟨.ok, st, []⟩
      else Tui.drawBody cfg sah saw st area hashAfter drawOk
  | none => Tui.drawBody cfg sah saw st area hashAfter drawOk

/-- `Tui::handle_events` (`src/tui.rs` lines 98–106): look up `CoreWindow`
(`unwrap`, i.e. panic — modelled as `none` — when absent) and hand the
event to its `handle_events` hook, returning that hook's result verbatim.
`handlers` gives each component's hook; the returned list records which
components' hooks were invoked. -/
def Tui.handle_events {α : Type} (reg : Registry)
    (handlers : ComponentName → Option Event → α) (event : Option Event) :
    Option α × List ComponentName :=
  if reg.coreWindow then (some (handlers .CoreWindow event), [.CoreWindow])
  else (none, [])

/-- `Tui::update` (`src/tui.rs` lines 112–118): iterate over the component
map and push the action into each component's `update` hook.  The map is a
`HashMap`, whose iteration order is unspecified; the order is therefore an
explicit parameter ranging over permutations of the registered names. -/
def Tui.update (iterOrder : List ComponentName) (action : Action) :
    List Effect :=
  iterOrder.map (fun n => .updateComp n action)

/-- Per-component handle flags plus the fail-fast loop of
`Tui::register_action_handler` (`src/tui.rs` lines 85–88): walk the map in
iteration order, handing the cloned sender to each component's own
registration hook; `fails n` tells whether component `n`'s hook errors.  A
component's flag is set when its hook succeeds.  Returns the final flags,
whether the whole call succeeded, and the list of components whose hooks
were attempted, in order. -/
def registerEach (fails : ComponentName → Bool) :
    List ComponentName → (ComponentName → Bool) →
    (ComponentName → Bool) × Bool × List ComponentName
  | [], hs => (hs, true, [])
  | n :: rest, hs =>
      if fails n then (hs, false, [n])
      else
        let r := registerEach fails rest (fun m => if m = n then true else hs m)
        (r.1, r.2.1, n :: r.2.2)

/-- `Tui::register_action_handler` (`src/tui.rs` lines 80–89): store the
sender on the orchestrator first (the `Bool` in the first component of the
result), then run the fail-fast registration loop over the map in
iteration order. -/
def Tui.register_action_handler (iterOrder : List ComponentName)
    (fails : ComponentName → Bool) :
    Bool × ((ComponentName → Bool) × Bool × List ComponentName) :=
  (true, registerEach fails iterOrder (fun _ => false))

/-! ## Helper lemmas -/

theorem charBytes_pos (c : Char) : 1 ≤ charBytes c := by
  simp only [charBytes]
  split_ifs <;> omega

theorem charBytes_eq_one (c : Char) : charBytes c = 1 ↔ c.toNat ≤ 0x7F := by
  simp only [charBytes]
  split_ifs with h1 h2 h3 <;> omega

theorem rustLen_cons (c : Char) (s : List Char) :
    rustLen (c :: s) = charBytes c + rustLen s := by
  simp [rustLen]

/-- The guard of the fallback branch of `event_with_modifiers` holds
exactly for a single ASCII character. -/
theorem ewm_guard_iff (s : List Char) :
    (rustLen s = 1 ∧ rustIsAscii (s.headD 'a') = true) ↔
    ∃ c, s = [c] ∧ c.toNat ≤ 0x7F := by
  cases s with
  | nil => simp [rustLen]
  | cons a t =>
      cases t with
      | nil =>
          simp only [rustLen, List.map_cons, List.map_nil, List.sum_cons,
            List.sum_nil, Nat.add_zero, List.headD_cons, rustIsAscii,
            decide_eq_true_eq]
          rw [charBytes_eq_one]
          constructor
          · rintro ⟨h1, _⟩
            exact ⟨a, rfl, h1⟩
          · rintro ⟨c, hc, h⟩
            cases hc
            exact ⟨h, h⟩
      | cons b u =>
          have ha := charBytes_pos a
          have hb := charBytes_pos b
          constructor
          · rintro ⟨h1, _⟩
            simp only [rustLen_cons] at h1
            omega
          · rintro ⟨c, hc, _⟩
            simp at hc

theorem lookupKey_eq_none (s : List Char) (t : List (List Char × KeyCode))
    (h : ∀ p ∈ t, List.length p.1 ≠ s.length) : lookupKey s t = none := by
  induction t with
  | nil => rfl
  | cons p rest ih =>
      obtain ⟨k, v⟩ := p
      have hk : ¬ s = k := by
        intro he
        exact h (k, v) (List.mem_cons_self _ _) (by rw [he])
      simp only [lookupKey, if_neg hk]
      exact ih fun q hq => h q (List.mem_cons_of_mem _ hq)

/-- No single character is a named key: every table key has at least two
characters. -/
theorem namedKeys_min_len :
    namedKeys.all (fun p => 2 ≤ p.1.length) = true := by decide

theorem lookupKey_singleton (c : Char) : lookupKey [c] namedKeys = none := by
  apply lookupKey_eq_none
  intro p hp
  have h2 := List.all_eq_true.1 namedKeys_min_len p hp
  simp only [decide_eq_true_eq] at h2
  simp only [List.length_cons, List.length_nil]
  omega

/-- The fallback branch on a single ASCII character produces that
character key with the given modifiers. -/
theorem ewm_single (c : Char) (m : Nat) (h : c.toNat ≤ 0x7F) :
    event_with_modifiers [c] m = .ok (.Key (.Char c) m) := by
  have h1 : charBytes c = 1 := (charBytes_eq_one c).2 h
  simp [event_with_modifiers, lookupKey_singleton, rustLen, h1, rustIsAscii, h]

theorem splitPlus_no_plus (s : List Char) (h : '+' ∉ s) :
    splitPlus s = [s] := by
  induction s with
  | nil => rfl
  | cons c cs ih =>
      have hc : ¬ c = '+' := fun he => h (he ▸ List.mem_cons_self _ _)
      have hcs : '+' ∉ cs := fun hm => h (List.mem_cons_of_mem _ hm)
      simp [splitPlus, hc, ih hcs]

theorem splitPlus_append (s t : List Char) (h : '+' ∉ s) :
    splitPlus (s ++ '+' :: t) = s :: splitPlus t := by
  induction s with
  | nil => simp [splitPlus]
  | cons c cs ih =>
      have hc : ¬ c = '+' := fun he => h (he ▸ List.mem_cons_self _ _)
      have hcs : '+' ∉ cs := fun hm => h (List.mem_cons_of_mem _ hm)
      simp [splitPlus, hc, ih hcs]

theorem joinPlus_cons (s : List Char) (l : List (List Char)) (h : l ≠ []) :
    joinPlus (s :: l) = s ++ '+' :: joinPlus l := by
  cases l with
  | nil => exact absurd rfl h
  | cons t r => rfl

theorem splitPlus_joinPlus (l : List (List Char)) (hne : l ≠ [])
    (h : ∀ seg ∈ l, '+' ∉ seg) : splitPlus (joinPlus l) = l := by
  induction l with
  | nil => exact absurd rfl hne
  | cons s rest ih =>
      cases rest with
      | nil => exact splitPlus_no_plus s (h s (List.mem_cons_self _ _))
      | cons t r =>
          rw [joinPlus_cons s _ (by simp)]
          rw [splitPlus_append _ _ (h s (List.mem_cons_self _ _))]
          rw [ih (by simp) fun seg hs => h seg (List.mem_cons_of_mem _ hs)]

theorem foldl_lor_perm {l₁ l₂ : List Nat} (h : l₁.Perm l₂) (b : Nat) :
    l₁.foldl (fun acc m => acc ||| m) b =
    l₂.foldl (fun acc m => acc ||| m) b := by
  induction h generalizing b with
  | nil => rfl
  | cons x _ ih => exact ih _
  | swap x y l =>
      simp only [List.foldl_cons]
      rw [Nat.lor_assoc, Nat.lor_comm y x, ← Nat.lor_assoc]
  | trans _ _ ih1 ih2 => rw [ih1, ih2]

theorem foldl_lor_dup (a : Nat) (l : List Nat) (b : Nat) :
    (a :: a :: l).foldl (fun acc m => acc ||| m) b =
    (a :: l).foldl (fun acc m => acc ||| m) b := by
  simp only [List.foldl_cons]
  rw [Nat.lor_assoc, Nat.or_self]

/-- Parsing a key-combo string assembled from `'+'`-free modifier segments
and a `'+'`-free key segment resolves to the key with the folded modifier
set. -/
theorem fromStrL_join (ms : List (List Char)) (key : List Char)
    (hms : ∀ m ∈ ms, '+' ∉ m) (hkey : '+' ∉ key) (hne : ms ≠ []) :
    fromStrL (joinPlus (ms ++ [key])) =
    event_with_modifiers key
      ((ms.map toModifier).foldl (fun acc m => acc ||| m) KM_NONE) := by
  have hall : ∀ seg ∈ ms ++ [key], '+' ∉ seg := by
    intro seg hseg
    rcases List.mem_append.1 hseg with h | h
    · exact hms seg h
    · rw [List.mem_singleton.1 h]
      exact hkey
  have hlen : 1 < (ms ++ [key]).length := by
    rcases ms with _ | ⟨m, rest⟩
    · exact absurd rfl hne
    · simp only [List.cons_append, List.length_cons, List.length_append,
        List.length_nil]
      omega
  unfold fromStrL
  rw [splitPlus_joinPlus _ (by simp) hall]
  rw [if_pos hlen]
  rw [List.getLastD_concat, List.dropLast_concat]

/-! ## Claim theorems -/

/-- C6: for every string whose last `'+'`-separated segment is not a
named-key table entry, a segment of exactly one ASCII character `c`
parses to `Key(Char(c), modifiers)` — with `NONE` modifiers when the
whole input is that single character — and any other segment (empty,
multi-character, or non-ASCII) fails with `InvalidEvent` carrying the
offending segment. -/
theorem c6_unrecognized_segment (s : List Char) (m : Nat)
    (hn : lookupKey s namedKeys = none) :
    (∀ c, s = [c] → c.toNat ≤ 0x7F →
        event_with_modifiers s m = .ok (.Key (.Char c) m)) ∧
    ((¬ ∃ c, s = [c] ∧ c.toNat ≤ 0x7F) →
        event_with_modifiers s m = .error (.InvalidEvent s)) ∧
    (∀ c, s = [c] → c.toNat ≤ 0x7F → c ≠ '+' →
        fromStrL s = .ok (.Key (.Char c) KM_NONE)) := by
  refine ⟨?_, ?_, ?_⟩
  · rintro c rfl hc
    exact ewm_single c m hc
  · intro hno
    have hg : ¬ (rustLen s = 1 ∧ rustIsAscii (s.headD 'a') = true) := by
      rw [ewm_guard_iff]
      exact hno
    simp only [event_with_modifiers, hn]
    rw [if_neg hg]
  · rintro c rfl hc hplus
    have hmem : '+' ∉ [c] := by
      intro hm
      exact hplus (List.mem_singleton.1 hm).symm
    unfold fromStrL
    rw [splitPlus_no_plus [c] hmem]
    simp only [List.length_cons, List.length_nil, Nat.lt_irrefl, if_false]
    exact ewm_single c KM_NONE hc

/-- Witness for C6 at the concrete unrecognized single-character segment
`"q"` with modifiers `5`. -/
theorem c6_unrecognized_segment_witness :
    event_with_modifiers ['q'] 5 = .ok (.Key (.Char 'q') 5) :=
  (c6_unrecognized_segment ['q'] 5 (by decide)).1 'q' rfl (by decide)

/-- C7: modifier folding is invariant under permutation and duplication of
the modifier segments, unrecognized modifier names fold to `NONE`, an
input without `'+'` parses with `NONE` modifiers, and concretely
`parse("ctrl+alt+a") = parse("alt+ctrl+a")`. -/
theorem c7_modifier_folding :
    (∀ (ms msp : List (List Char)) (key : List Char),
        (∀ m ∈ ms, '+' ∉ m) → '+' ∉ key → ms.Perm msp →
        fromStrL (joinPlus (ms ++ [key])) =
        fromStrL (joinPlus (msp ++ [key]))) ∧
    (∀ (m : List Char) (ms : List (List Char)) (key : List Char),
        '+' ∉ m → (∀ x ∈ ms, '+' ∉ x) → '+' ∉ key →
        fromStrL (joinPlus (m :: m :: (ms ++ [key]))) =
        fromStrL (joinPlus (m :: (ms ++ [key])))) ∧
    (∀ m : List Char,
        m ∉ ["ctrl".data, "alt".data, "shift".data, "super".data,
             "meta".data, "hyper".data] →
        toModifier m = KM_NONE) ∧
    (∀ s : List Char, '+' ∉ s → fromStrL s = event_with_modifiers s KM_NONE) ∧
    fromStr "ctrl+alt+a" = fromStr "alt+ctrl+a" := by
  refine ⟨?_, ?_, ?_, ?_, by decide⟩
  · intro ms msp key hms hkey hp
    rcases ms with _ | ⟨m0, rest⟩
    · rw [hp.symm.eq_nil]
    · have hnil : (m0 :: rest) ≠ [] := by simp
      have hnilp : msp ≠ [] := by
        intro he
        rw [he] at hp
        exact hnil hp.eq_nil
      have hmsp : ∀ x ∈ msp, '+' ∉ x := fun x hx =>
        hms x (hp.symm.subset hx)
      rw [fromStrL_join _ _ hms hkey hnil, fromStrL_join _ _ hmsp hkey hnilp]
      rw [foldl_lor_perm (hp.map toModifier)]
  · intro m ms key hm hms hkey
    have hall : ∀ x ∈ m :: ms, '+' ∉ x := by
      intro x hx
      rcases List.mem_cons.1 hx with rfl | hx
      · exact hm
      · exact hms x hx
    have halld : ∀ x ∈ m :: m :: ms, '+' ∉ x := by
      intro x hx
      rcases List.mem_cons.1 hx with rfl | hx
      · exact hm
      · exact hall x hx
    rw [show m :: m :: (ms ++ [key]) = (m :: m :: ms) ++ [key] by simp]
    rw [show m :: (ms ++ [key]) = (m :: ms) ++ [key] by simp]
    rw [fromStrL_join _ _ halld hkey (by simp),
      fromStrL_join _ _ hall hkey (by simp)]
    simp only [List.map_cons]
    rw [foldl_lor_dup]
  · intro m hm
    simp only [List.mem_cons, List.not_mem_nil, or_false, not_or] at hm
    obtain ⟨h1, h2, h3, h4, h5, h6⟩ := hm
    simp [toModifier, h1, h2, h3, h4, h5, h6]
  · intro s h
    unfold fromStrL
    rw [splitPlus_no_plus s h]
    simp only [List.length_cons, List.length_nil, Nat.lt_irrefl, if_false]

/-- Witness for C7: the no-`'+'` conjunct applied to the concrete input
`"x"`. -/
theorem c7_modifier_folding_witness :
    fromStrL ['x'] = event_with_modifiers ['x'] KM_NONE :=
  c7_modifier_folding.2.2.2.1 ['x'] (by decide)

/-- C8: `parse("ctrl+a")` yields `Key(Char('a'), CONTROL)`, formatting
that event yields exactly `"Ctrl+a"`, and in general a character key with
exactly one of the six known modifiers formats as `"<Modifier>+<char>"`. -/
theorem c8_ctrl_a_roundtrip :
    fromStr "ctrl+a" = .ok (.Key (.Char 'a') KM_CONTROL) ∧
    fmtEvent (.Key (.Char 'a') KM_CONTROL) = "Ctrl+a" ∧
    (∀ c : Char,
      fmtEventL (.Key (.Char c) KM_CONTROL) = "Ctrl+".data ++ [c] ∧
      fmtEventL (.Key (.Char c) KM_ALT) = "Alt+".data ++ [c] ∧
      fmtEventL (.Key (.Char c) KM_SHIFT) = "Shift+".data ++ [c] ∧
      fmtEventL (.Key (.Char c) KM_SUPER) = "Super+".data ++ [c] ∧
      fmtEventL (.Key (.Char c) KM_META) = "Meta+".data ++ [c] ∧
      fmtEventL (.Key (.Char c) KM_HYPER) = "Hyper+".data ++ [c]) :=
  ⟨by decide, by decide, fun c => ⟨rfl, rfl, rfl, rfl, rfl, rfl⟩⟩

/-- C10 counterexample: at `c = '+'` the claim fails — the formatted form
of `Key(Char('+'), CONTROL)` is `"Ctrl++"`, and parsing it does not yield
`Key(Char('+'), NONE)` but an `InvalidEvent` error carrying the empty last
segment. -/
theorem c10_plus_char_cex :
    fmtEvent (.Key (.Char '+') KM_CONTROL) = "Ctrl++" ∧
    fromStr "Ctrl++" = .error (.InvalidEvent []) :=
  ⟨by decide, by decide⟩

/-- C10 (amended): for every ASCII character except `'+'`, the formatter
output `"Ctrl+" ++ c` parses back, but the capitalized `"Ctrl"` segment
folds to `NONE`, losing the modifier. -/
theorem c10_format_parse_loses_modifier (c : Char) (hc : c.toNat ≤ 0x7F)
    (hp : c ≠ '+') :
    fmtEventL (.Key (.Char c) KM_CONTROL) = "Ctrl+".data ++ [c] ∧
    fromStrL ("Ctrl+".data ++ [c]) = .ok (.Key (.Char c) KM_NONE) := by
  refine ⟨rfl, ?_⟩
  have hsplit : splitPlus ("Ctrl+".data ++ [c]) =
      ["Ctrl".data, [c]] := by
    have h1 : ("Ctrl+".data ++ [c]) = "Ctrl".data ++ '+' :: [c] := rfl
    rw [h1, splitPlus_append _ _ (by decide)]
    rw [splitPlus_no_plus [c]
      (fun hm => hp (List.mem_singleton.1 hm).symm)]
  unfold fromStrL
  rw [hsplit]
  simp only [List.length_cons, List.length_nil, List.getLastD,
    List.dropLast, List.map_cons, List.map_nil, List.foldl_cons,
    List.foldl_nil]
  rw [if_pos (by omega)]
  have hmod : toModifier "Ctrl".data = KM_NONE := by decide
  rw [hmod]
  exact ewm_single c (KM_NONE ||| KM_NONE) hc

/-- Witness for the amended C10 at `c = 'a'`. -/
theorem c10_format_parse_loses_modifier_witness :
    fmtEventL (.Key (.Char 'a') KM_CONTROL) = "Ctrl+".data ++ ['a'] ∧
    fromStrL ("Ctrl+".data ++ ['a']) = .ok (.Key (.Char 'a') KM_NONE) :=
  c10_format_parse_loses_modifier 'a' (by decide) (by decide)

/-- C1: the vertical three-band split of the draw pass gives the header
band height 3 exactly when `show_title_bar` is set and
`area.height > SMALL_AREA_HEIGHT + 5` (else 0), the footer band height 3
under the same size condition gated by `show_status_bar` (else 0), and
the body band the remaining space with a minimum of `SMALL_AREA_HEIGHT`;
in particular with `show_title_bar = false`, `show_status_bar = true` and
area height 40 the bands are `(0, 37, 3)`. -/
theorem c1_layout_bands (t s : Bool) (areaH sah : Nat) :
    (drawLayout t s areaH sah).1 =
      (if t = true ∧ sah + 5 < areaH then 3 else 0) ∧
    (drawLayout t s areaH sah).2.2 =
      (if s = true ∧ sah + 5 < areaH then 3 else 0) ∧
    (drawLayout t s areaH sah).2.1 =
      max sah (areaH - (drawLayout t s areaH sah).1 -
        (drawLayout t s areaH sah).2.2) ∧
    (sah + 5 < 40 → drawLayout false true 40 sah = (0, 37, 3)) := by
  refine ⟨?_, ?_, rfl, ?_⟩
  · cases t <;> by_cases h : sah + 5 < areaH <;>
      simp [drawLayout, splitVertical3, headerHeight, h]
  · cases s <;> by_cases h : sah + 5 < areaH <;>
      simp [drawLayout, splitVertical3, footerHeight, h]
  · intro h
    simp only [drawLayout, splitVertical3, headerHeight, footerHeight,
      if_pos h, if_true, if_false, Bool.false_eq_true, Nat.sub_zero]
    rw [Nat.max_eq_right (by omega)]

/-- Witness for the C1 scenario at the concrete threshold
`SMALL_AREA_HEIGHT = 10`. -/
theorem c1_layout_bands_witness : drawLayout false true 40 10 = (0, 37, 3) :=
  (c1_layout_bands false true 40 10).2.2.2 (by decide)

/-- C2: when a stored frame hash exists and equals the hash of the current
frame buffer, `draw` returns success immediately with an empty interaction
trace — no component draw calls, no layout split, no `UpdateArea` push —
and the state (including the stored hash) is unchanged. -/
theorem c2_draw_skip (cfg : AppConfig) (sah saw : Nat) (st : TuiState)
    (area : Rect) (hashBefore hashAfter : Nat)
    (drawOk : ComponentName → Bool) (h : Nat)
    (h1 : st.hash_frame = some h) (h2 : hashBefore = h) :
    Tui.draw cfg sah saw st area hashBefore hashAfter drawOk =
      ⟨.ok, st, []⟩ := by
  subst h2
  unfold Tui.draw
  rw [h1]
  simp

/-- Witness for C2 with stored hash `7` matching the incoming frame
hash `7`. -/
theorem c2_draw_skip_witness :
    Tui.draw ⟨true, true⟩ 10 100 ⟨tuiNewRegistry, some 7⟩ ⟨0, 0, 80, 40⟩ 7 9
      (fun _ => true) = ⟨.ok, ⟨tuiNewRegistry, some 7⟩, []⟩ :=
  c2_draw_skip _ _ _ _ _ _ _ _ 7 rfl rfl

/-- C3 counterexample: the component map is a `HashMap` with unspecified
iteration order, so a legitimate iteration order exists under which the
broadcast of `update` is not in registration order — the claim that
delivery always happens in the order TitleBar, CoreWindow, StatusBar is
false. -/
theorem c3_iteration_order_cex :
    Tui.update [.StatusBar, .TitleBar, .CoreWindow] (.other 0) ≠
      registrationOrder.map (fun n => Effect.updateComp n (.other 0)) := by
  decide

/-- C3 (amended): `update` delivers the action to every registered
component exactly once per call, unconditionally, for every iteration
order the map can present. -/
theorem c3_broadcast_once (iterOrder : List ComponentName) (a : Action)
    (h : iterOrder.Perm registrationOrder) (n : ComponentName) :
    (Tui.update iterOrder a).count (.updateComp n a) = 1 := by
  unfold Tui.update
  rw [(h.map (fun n => Effect.updateComp n a)).count_eq]
  cases n <;>
    simp [registrationOrder, List.count_cons, List.count_nil]

/-- Witness for the amended C3 on the iteration order StatusBar,
CoreWindow, TitleBar. -/
theorem c3_broadcast_once_witness :
    (Tui.update [.StatusBar, .CoreWindow, .TitleBar] (.other 1)).count
      (.updateComp .StatusBar (.other 1)) = 1 :=
  c3_broadcast_once _ _ (by decide) _

/-- C4: `handle_events` invokes the `handle_events` hook of the
`CoreWindow` component only — no other component hook is invoked — and
returns exactly the result that hook produces, for every event including
`none`. -/
theorem c4_route_to_core_window {α : Type}
    (handlers : ComponentName → Option Event → α) (event : Option Event) :
    Tui.handle_events tuiNewRegistry handlers event =
      (some (handlers .CoreWindow event), [.CoreWindow]) := rfl

/-- C5 counterexample: with `TitleBar` absent from the registry, `draw`
does not return an error value to its caller — it takes the
`unwrap_or_else(panic!)` path, modelled as the `panicked` outcome. -/
theorem c5_missing_component_cex :
    (Tui.draw ⟨true, true⟩ 10 100 ⟨⟨false, true, true⟩, none⟩
        ⟨0, 0, 80, 40⟩ 3 4 (fun _ => true)).result ≠ .err ∧
    (Tui.draw ⟨true, true⟩ 10 100 ⟨⟨false, true, true⟩, none⟩
        ⟨0, 0, 80, 40⟩ 3 4 (fun _ => true)).result =
      .panicked .TitleBar :=
  ⟨by decide, by decide⟩

/-- C5 (amended): if any named component is absent from the registry when
`draw` runs its pass, `draw` panics (a fatal invariant violation
terminating the process) at the first lookup of a missing component,
rather than returning an error to its caller. -/
theorem c5_missing_component_panics (cfg : AppConfig) (sah saw : Nat)
    (reg : Registry) (area : Rect) (hb ha : Nat)
    (drawOk : ComponentName → Bool)
    (hmiss : reg.titleBar = false ∨ reg.coreWindow = false ∨
      reg.statusBar = false) :
    ∃ n, (Tui.draw cfg sah saw ⟨reg, none⟩ area hb ha drawOk).result =
        .panicked n ∧ reg.present n = false := by
  obtain ⟨tb, cw, sb⟩ := reg
  cases sb with
  | false => exact ⟨.StatusBar, rfl, rfl⟩
  | true =>
      cases cw with
      | false => exact ⟨.CoreWindow, rfl, rfl⟩
      | true =>
          cases tb with
          | false => exact ⟨.TitleBar, rfl, rfl⟩
          | true => simp at hmiss

/-- Witness for the amended C5: StatusBar absent. -/
theorem c5_missing_component_panics_witness :
    ∃ n, (Tui.draw ⟨true, true⟩ 10 100 ⟨⟨true, true, false⟩, none⟩
        ⟨0, 0, 80, 40⟩ 1 2 (fun _ => true)).result = .panicked n ∧
      Registry.present ⟨true, true, false⟩ n = false :=
  c5_missing_component_panics ⟨true, true⟩ 10 100 ⟨true, true, false⟩
    ⟨0, 0, 80, 40⟩ 1 2 (fun _ => true) (Or.inr (Or.inr rfl))

/-- All-success behaviour of the registration loop, for any starting
flags. -/
theorem registerEach_all_ok (fails : ComponentName → Bool)
    (order : List ComponentName) (hs : ComponentName → Bool)
    (hall : ∀ m ∈ order, fails m = false) :
    (registerEach fails order hs).2.1 = true ∧
    (registerEach fails order hs).2.2 = order ∧
    (∀ m, (registerEach fails order hs).1 m =
      (if m ∈ order then true else hs m)) := by
  induction order generalizing hs with
  | nil => simp [registerEach]
  | cons n rest ih =>
      have hn : fails n = false := hall n (List.mem_cons_self _ _)
      obtain ⟨ih1, ih2, ih3⟩ := ih (fun m => if m = n then true else hs m)
        (fun m hm => hall m (List.mem_cons_of_mem _ hm))
      simp only [registerEach, hn, Bool.false_eq_true, if_false]
      refine ⟨ih1, by rw [ih2], ?_⟩
      intro m
      rw [ih3 m]
      by_cases h1 : m = n <;> by_cases h2 : m ∈ rest <;>
        simp [h1, h2, List.mem_cons]

/-- Fail-fast behaviour of the registration loop: the first failing
component stops the walk; earlier components keep their flags. -/
theorem registerEach_fail_at (fails : ComponentName → Bool)
    (pre : List ComponentName) (n : ComponentName)
    (post : List ComponentName) (hs : ComponentName → Bool)
    (hpre : ∀ m ∈ pre, fails m = false) (hn : fails n = true) :
    (registerEach fails (pre ++ n :: post) hs).2.1 = false ∧
    (registerEach fails (pre ++ n :: post) hs).2.2 = pre ++ [n] ∧
    (∀ m, (registerEach fails (pre ++ n :: post) hs).1 m =
      (if m ∈ pre then true else hs m)) := by
  induction pre generalizing hs with
  | nil => simp [registerEach, hn]
  | cons p pre ih =>
      have hp : fails p = false := hpre p (List.mem_cons_self _ _)
      obtain ⟨ih1, ih2, ih3⟩ := ih (fun m => if m = p then true else hs m)
        (fun m hm => hpre m (List.mem_cons_of_mem _ hm))
      simp only [List.cons_append, registerEach, hp, Bool.false_eq_true,
        if_false, List.append_eq]
      refine ⟨ih1, by rw [ih2], ?_⟩
      intro m
      rw [ih3 m]
      by_cases h1 : m = p <;> by_cases h2 : m ∈ pre <;>
        simp [h1, h2, List.mem_cons]

/-- C9: `register_action_handler` stores the channel endpoint on the
orchestrator and forwards it to every owned component; when every
component registration succeeds, all components end up with a handle and
the call succeeds; when a component's registration fails, the remaining
registrations are not attempted, the error propagates, and exactly the
components registered before the failure keep their handle. -/
theorem c9_register_fail_fast (fails : ComponentName → Bool) :
    (∀ order : List ComponentName, (∀ m ∈ order, fails m = false) →
        (Tui.register_action_handler order fails).1 = true ∧
        (Tui.register_action_handler order fails).2.2.1 = true ∧
        (Tui.register_action_handler order fails).2.2.2 = order ∧
        (∀ m ∈ order, (Tui.register_action_handler order fails).2.1 m =
          true)) ∧
    (∀ (pre : List ComponentName) (n : ComponentName)
        (post : List ComponentName),
        (∀ m ∈ pre, fails m = false) → fails n = true →
        (Tui.register_action_handler (pre ++ n :: post) fails).1 = true ∧
        (Tui.register_action_handler (pre ++ n :: post) fails).2.2.1 =
          false ∧
        (Tui.register_action_handler (pre ++ n :: post) fails).2.2.2 =
          pre ++ [n] ∧
        (∀ m, (Tui.register_action_handler
            (pre ++ n :: post) fails).2.1 m = true ↔ m ∈ pre)) := by
  constructor
  · intro order hall
    obtain ⟨h1, h2, h3⟩ :=
      registerEach_all_ok fails order (fun _ => false) hall
    refine ⟨rfl, h1, h2, ?_⟩
    intro m hm
    rw [show (Tui.register_action_handler order fails).2.1 m =
      (registerEach fails order (fun _ => false)).1 m from rfl, h3 m]
    simp [hm]
  · intro pre n post hpre hn
    obtain ⟨h1, h2, h3⟩ :=
      registerEach_fail_at fails pre n post (fun _ => false) hpre hn
    refine ⟨rfl, h1, h2, ?_⟩
    intro m
    rw [show (Tui.register_action_handler (pre ++ n :: post) fails).2.1 m =
      (registerEach fails (pre ++ n :: post) (fun _ => false)).1 m from rfl,
      h3 m]
    by_cases h : m ∈ pre <;> simp [h]

/-- Witness for C9: CoreWindow's registration fails; TitleBar was
attempted and keeps its handle, StatusBar is never attempted. -/
theorem c9_register_fail_fast_witness :
    (Tui.register_action_handler [.TitleBar, .CoreWindow, .StatusBar]
        (fun n => decide (n = ComponentName.CoreWindow))).2.2.2 =
      [.TitleBar, .CoreWindow] :=
  ((c9_register_fail_fast
      (fun n => decide (n = ComponentName.CoreWindow))).2
    [.TitleBar] .CoreWindow [.StatusBar] (by decide) (by decide)).2.2.1

end Tgt
